import Mathlib

/-!
Verification of the attribute configuration and destination-resolution engine
declared in `src/vendor/newrelic/axiom/nr_attributes.h`.

The repository ships only the header: the declarations, constants and the
documentation comments of each operation. The operations themselves
(`nr_attribute_config_*`, `nr_attributes_*`) are therefore modelled from the
specification's description of their behaviour; every such definition carries a
doc comment starting `Modelled from the spec:` naming the missing function.

Destination bitsets are `uint32_t` values combined only by `|`, `&` and `& ~`;
these never overflow, so they are embedded as `Nat` with `|||`, `&&&` and the
`andNot` operation below. Byte strings are embedded as `List Char`.
-/

namespace NrAttributes

/-- `NR_ATTRIBUTE_DESTINATION_NONE` from nr_attributes.h. -/
def NR_ATTRIBUTE_DESTINATION_NONE : Nat := 0

/-- `NR_ATTRIBUTE_DESTINATION_TXN_EVENT` from nr_attributes.h. -/
def NR_ATTRIBUTE_DESTINATION_TXN_EVENT : Nat := 1

/-- `NR_ATTRIBUTE_DESTINATION_TXN_TRACE` from nr_attributes.h. -/
def NR_ATTRIBUTE_DESTINATION_TXN_TRACE : Nat := 2

/-- `NR_ATTRIBUTE_DESTINATION_ERROR` from nr_attributes.h. -/
def NR_ATTRIBUTE_DESTINATION_ERROR : Nat := 4

/-- `NR_ATTRIBUTE_DESTINATION_BROWSER` from nr_attributes.h. -/
def NR_ATTRIBUTE_DESTINATION_BROWSER : Nat := 8

/-- `NR_ATTRIBUTE_DESTINATION_ALL` from nr_attributes.h: the OR of the four flags. -/
def NR_ATTRIBUTE_DESTINATION_ALL : Nat :=
  NR_ATTRIBUTE_DESTINATION_TXN_EVENT ||| NR_ATTRIBUTE_DESTINATION_TXN_TRACE
    ||| NR_ATTRIBUTE_DESTINATION_ERROR ||| NR_ATTRIBUTE_DESTINATION_BROWSER

/-- `NR_ATTRIBUTE_KEY_LENGTH_LIMIT` from nr_attributes.h. -/
def NR_ATTRIBUTE_KEY_LENGTH_LIMIT : Nat := 255

/-- `NR_ATTRIBUTE_VALUE_LENGTH_LIMIT` from nr_attributes.h. -/
def NR_ATTRIBUTE_VALUE_LENGTH_LIMIT : Nat := 255

/-- `NR_ATTRIBUTE_USER_LIMIT` from nr_attributes.h. -/
def NR_ATTRIBUTE_USER_LIMIT : Nat := 64

/-- The C expression `a & ~b` on destination bitsets, expressed on `Nat`
(`a ^ (a & b)` clears exactly the bits of `b` from `a`). -/
def andNot (a b : Nat) : Nat := a ^^^ (a &&& b)

/-- The `nr_status_t` result type from nr_axiom.h: success or failure. -/
inductive nr_status_t : Type
  | NR_SUCCESS : nr_status_t
  | NR_FAILURE : nr_status_t
deriving DecidableEq

/-- Modelled from the spec: the value struct of a Rule — the per-pattern
`{include, exclude}` destination-bitset pair accumulated by
`nr_attribute_config_modify_destinations` (its implementation is not in the
repository; the field names follow the header's parameter names). -/
structure destination_modifier_t : Type where
  include_destinations : Nat
  exclude_destinations : Nat
deriving DecidableEq

/-- Modelled from the spec: `nr_attribute_config_t`, whose struct body is not
in the repository — the global disabled-destinations bitset plus the owned
mapping from pattern string to Rule, kept in insertion order. -/
structure nr_attribute_config_t : Type where
  disabled_destinations : Nat
  rules : List (List Char × destination_modifier_t)
deriving DecidableEq

/-- Modelled from the spec: `nr_attribute_config_create` — an empty config:
no disabled destinations, no rules. -/
def nr_attribute_config_create : nr_attribute_config_t :=
  { disabled_destinations := 0, rules := [] }

/-- Modelled from the spec: `nr_attribute_config_disable_destinations` — OR
the given bitset into the global disable set. -/
def nr_attribute_config_disable_destinations (config : nr_attribute_config_t)
    (disabled_destinations : Nat) : nr_attribute_config_t :=
  { config with
    disabled_destinations := config.disabled_destinations ||| disabled_destinations }

/-- Modelled from the spec: lookup-or-insert merge of a Rule into the rule
list — an existing entry for the same pattern has the new include/exclude
OR-ed in; otherwise a new entry is appended. -/
def updateRules (rules : List (List Char × destination_modifier_t))
    (pattern : List Char) (inc exc : Nat) :
    List (List Char × destination_modifier_t) :=
  match rules with
  | [] => [(pattern, { include_destinations := inc, exclude_destinations := exc })]
  | r :: rest =>
    if r.1 = pattern then
      (r.1,
        { include_destinations := r.2.include_destinations ||| inc,
          exclude_destinations := r.2.exclude_destinations ||| exc }) :: rest
    else
      r :: updateRules rest pattern inc exc

/-- Modelled from the spec: `nr_attribute_config_modify_destinations` — a
non-empty pattern is merged into the Rule keyed by that pattern (OR-ing on a
repeated pattern); an empty pattern is rejected by validation and has no
effect. -/
def nr_attribute_config_modify_destinations (config : nr_attribute_config_t)
    (pattern : List Char) (include_destinations exclude_destinations : Nat) :
    nr_attribute_config_t :=
  if pattern = [] then config
  else
    { config with
      rules := updateRules config.rules pattern include_destinations exclude_destinations }

/-- Modelled from the spec: whether a pattern is a wildcard pattern, i.e. its
final character is the `*` marker. -/
def patternIsWildcard (p : List Char) : Bool :=
  decide (p.getLast? = some '*')

/-- Modelled from the spec: the literal prefix of a wildcard pattern — the
pattern minus its trailing `*`. -/
def patternLiteralPrefix (p : List Char) : List Char :=
  p.dropLast

/-- Modelled from the spec: pattern matching against a key — a wildcard
pattern matches iff the key starts with its literal prefix; any other pattern
matches iff it equals the key (so a `*` not in last position is literal). -/
def patternMatches (p key : List Char) : Bool :=
  if patternIsWildcard p then (patternLiteralPrefix p).isPrefixOf key
  else decide (p = key)

/-- Modelled from the spec: the specificity score of a matching pattern —
exact-match flag primary, literal-prefix length secondary, encoded so that a
higher score is more specific (an exact pattern matching a key has score
`2 * key.length + 1`, strictly above every wildcard matcher's
`2 * prefix.length ≤ 2 * key.length`). -/
def matchSpecificity (p : List Char) : Nat :=
  if patternIsWildcard p then 2 * (patternLiteralPrefix p).length
  else 2 * p.length + 1

/-- Modelled from the spec: select the most specific Rule whose pattern
matches the key; on a specificity tie the rule already held (scanned later in
the list) is kept, a deterministic implementation-defined tie-break. -/
def mostSpecificRule (key : List Char)
    (rules : List (List Char × destination_modifier_t)) :
    Option (List Char × destination_modifier_t) :=
  match rules with
  | [] => none
  | r :: rest =>
    let best := mostSpecificRule key rest
    if patternMatches r.1 key then
      match best with
      | none => some r
      | some b =>
        if matchSpecificity b.1 < matchSpecificity r.1 then some r else some b
    else best

/-- Modelled from the spec: steps 1–4 of the Destination Resolver — apply the
most specific matching Rule (if any) to the default destinations, before the
global-disable step. -/
def applyRules (default_destinations : Nat) (key : List Char)
    (config : nr_attribute_config_t) : Nat :=
  match mostSpecificRule key config.rules with
  | some r =>
    andNot (default_destinations ||| r.2.include_destinations) r.2.exclude_destinations
  | none => default_destinations

/-- Modelled from the spec: the full Destination Resolver
`resolve(default_destinations, key, config)` — the rule stage followed by the
final clearing of the globally disabled destinations. -/
def resolve (default_destinations : Nat) (key : List Char)
    (config : nr_attribute_config_t) : Nat :=
  andNot (applyRules default_destinations key config) config.disabled_destinations

/-- The opaque `nrobj_t` value type, modelled per the spec's tagged union:
a signed 64-bit long, a byte string, or the hash (key-to-value mapping)
produced by extraction. -/
inductive nrobj_t : Type
  | long : Int → nrobj_t
  | str : List Char → nrobj_t
  | hash : List (List Char × nrobj_t) → nrobj_t

/-- Modelled from the spec: truncation of a value before storage — a string
value is cut to `NR_ATTRIBUTE_VALUE_LENGTH_LIMIT` bytes, other variants are
stored unchanged. -/
def truncateValue (v : nrobj_t) : nrobj_t :=
  match v with
  | nrobj_t.str s => nrobj_t.str (s.take NR_ATTRIBUTE_VALUE_LENGTH_LIMIT)
  | v => v

/-- Modelled from the spec: a stored Attribute — truncated key, owned value,
and the destination bitset resolved once at insertion time. -/
structure nr_attribute_t : Type where
  key : List Char
  value : nrobj_t
  destinations : Nat

/-- Modelled from the spec: `nr_attributes_t`, whose struct body is not in the
repository — the bound config reference plus the user and agent collections in
insertion order. -/
structure nr_attributes_t : Type where
  config : nr_attribute_config_t
  user_attributes : List nr_attribute_t
  agent_attributes : List nr_attribute_t

/-- Modelled from the spec: `nr_attributes_create` — a new empty store bound
to the given config. -/
def nr_attributes_create (config : nr_attribute_config_t) : nr_attributes_t :=
  { config := config, user_attributes := [], agent_attributes := [] }

/-- Modelled from the spec: `nr_attributes_user_add` — fails without mutation
when the user collection already holds `NR_ATTRIBUTE_USER_LIMIT` entries;
otherwise resolves destinations via the bound config, truncates the key and a
string value, and appends to the user collection. -/
def nr_attributes_user_add (ats : nr_attributes_t) (default_destinations : Nat)
    (key : List Char) (value : nrobj_t) : nr_status_t × nr_attributes_t :=
  if NR_ATTRIBUTE_USER_LIMIT ≤ ats.user_attributes.length then
    (nr_status_t.NR_FAILURE, ats)
  else
    (nr_status_t.NR_SUCCESS,
      { ats with
        user_attributes := ats.user_attributes ++
          [{ key := key.take NR_ATTRIBUTE_KEY_LENGTH_LIMIT,
             value := truncateValue value,
             destinations := resolve default_destinations key ats.config }] })

/-- Modelled from the spec: `nr_attributes_agent_add_long` — same resolution
and key truncation, no cardinality cap; appends a long value to the agent
collection. -/
def nr_attributes_agent_add_long (ats : nr_attributes_t)
    (default_destinations : Nat) (key : List Char) (lng : Int) :
    nr_status_t × nr_attributes_t :=
  (nr_status_t.NR_SUCCESS,
    { ats with
      agent_attributes := ats.agent_attributes ++
        [{ key := key.take NR_ATTRIBUTE_KEY_LENGTH_LIMIT,
           value := nrobj_t.long lng,
           destinations := resolve default_destinations key ats.config }] })

/-- Modelled from the spec: `nr_attributes_agent_add_string` — same resolution
and key truncation, no cardinality cap; appends a truncated string value to
the agent collection. -/
def nr_attributes_agent_add_string (ats : nr_attributes_t)
    (default_destinations : Nat) (key : List Char) (s : List Char) :
    nr_status_t × nr_attributes_t :=
  (nr_status_t.NR_SUCCESS,
    { ats with
      agent_attributes := ats.agent_attributes ++
        [{ key := key.take NR_ATTRIBUTE_KEY_LENGTH_LIMIT,
           value := nrobj_t.str (s.take NR_ATTRIBUTE_VALUE_LENGTH_LIMIT),
           destinations := resolve default_destinations key ats.config }] })

/-- Modelled from the spec: `nr_attributes_user_add_string` — the convenience
testing function; its behaviour is stated independently here (capacity check,
resolution, key and string-value truncation, append to the user collection) so
that its equivalence with `nr_attributes_user_add` on a string-wrapping value
is a theorem rather than a definition. -/
def nr_attributes_user_add_string (ats : nr_attributes_t)
    (default_destinations : Nat) (key : List Char) (s : List Char) :
    nr_status_t × nr_attributes_t :=
  if NR_ATTRIBUTE_USER_LIMIT ≤ ats.user_attributes.length then
    (nr_status_t.NR_FAILURE, ats)
  else
    (nr_status_t.NR_SUCCESS,
      { ats with
        user_attributes := ats.user_attributes ++
          [{ key := key.take NR_ATTRIBUTE_KEY_LENGTH_LIMIT,
             value := nrobj_t.str (s.take NR_ATTRIBUTE_VALUE_LENGTH_LIMIT),
             destinations := resolve default_destinations key ats.config }] })

/-- Modelled from the spec: `nr_attributes_user_add_long` — the convenience
testing function, stated independently like `nr_attributes_user_add_string`. -/
def nr_attributes_user_add_long (ats : nr_attributes_t)
    (default_destinations : Nat) (key : List Char) (lng : Int) :
    nr_status_t × nr_attributes_t :=
  if NR_ATTRIBUTE_USER_LIMIT ≤ ats.user_attributes.length then
    (nr_status_t.NR_FAILURE, ats)
  else
    (nr_status_t.NR_SUCCESS,
      { ats with
        user_attributes := ats.user_attributes ++
          [{ key := key.take NR_ATTRIBUTE_KEY_LENGTH_LIMIT,
             value := nrobj_t.long lng,
             destinations := resolve default_destinations key ats.config }] })

/-- Modelled from the spec: setting a key in the extraction output mapping —
a later insertion overwrites an earlier entry with the same key, otherwise it
is appended (standard mapping semantics). -/
def hashSet (entries : List (List Char × nrobj_t)) (k : List Char) (v : nrobj_t) :
    List (List Char × nrobj_t) :=
  match entries with
  | [] => [(k, v)]
  | e :: rest => if e.1 = k then (k, v) :: rest else e :: hashSet rest k v

/-- Modelled from the spec: the extraction core shared by `user_to_obj` and
`agent_to_obj` — walk the collection in insertion order and set into the
output mapping every attribute whose resolved destination bitset has a bit in
common with the filter. -/
def attributesToObj (attrs : List nr_attribute_t) (destination : Nat) : nrobj_t :=
  nrobj_t.hash
    (attrs.foldl
      (fun m a => if a.destinations &&& destination ≠ 0 then hashSet m a.key a.value else m)
      [])

/-- Modelled from the spec: `nr_attributes_user_to_obj`. -/
def nr_attributes_user_to_obj (ats : nr_attributes_t) (destination : Nat) : nrobj_t :=
  attributesToObj ats.user_attributes destination

/-- Modelled from the spec: `nr_attributes_agent_to_obj`. -/
def nr_attributes_agent_to_obj (ats : nr_attributes_t) (destination : Nat) : nrobj_t :=
  attributesToObj ats.agent_attributes destination

/-- A configuration call, for stating properties of arbitrary interleavings of
the two mutating operations on a config. -/
inductive config_op : Type
  | disable : Nat → config_op
  | modify : List Char → Nat → Nat → config_op

/-- Apply one configuration call. -/
def applyConfigOp (c : nr_attribute_config_t) (op : config_op) : nr_attribute_config_t :=
  match op with
  | config_op.disable d => nr_attribute_config_disable_destinations c d
  | config_op.modify p i e => nr_attribute_config_modify_destinations c p i e

/-- Apply a sequence of configuration calls in order. -/
def applyConfigOps (c : nr_attribute_config_t) (ops : List config_op) :
    nr_attribute_config_t :=
  ops.foldl applyConfigOp c

/-- Fold a list of `(default_destinations, key, value)` user insertions into a
store, keeping only the store state (statuses dropped). -/
def userAddAll (ats : nr_attributes_t) (xs : List (Nat × List Char × nrobj_t)) :
    nr_attributes_t :=
  xs.foldl (fun s x => (nr_attributes_user_add s x.1 x.2.1 x.2.2).2) ats

/-- The spec's specificity example: a wildcard rule for `"foo*"` including
BROWSER and an exact rule for `"foobar"` excluding BROWSER. -/
def specificityExampleConfig : nr_attribute_config_t :=
  nr_attribute_config_modify_destinations
    (nr_attribute_config_modify_destinations nr_attribute_config_create
      ['f', 'o', 'o', '*']
      NR_ATTRIBUTE_DESTINATION_BROWSER NR_ATTRIBUTE_DESTINATION_NONE)
    ['f', 'o', 'o', 'b', 'a', 'r']
    NR_ATTRIBUTE_DESTINATION_NONE NR_ATTRIBUTE_DESTINATION_BROWSER

/-- A store whose user collection already holds `NR_ATTRIBUTE_USER_LIMIT`
entries, for exercising the capacity check. -/
def fullUserStore : nr_attributes_t :=
  { config := nr_attribute_config_create,
    user_attributes := List.replicate NR_ATTRIBUTE_USER_LIMIT
      { key := ['k'], value := nrobj_t.long 0, destinations := 0 },
    agent_attributes := [] }

/-- A batch of 65 user insertions. -/
def sixtyFiveInserts : List (Nat × List Char × nrobj_t) :=
  List.replicate 65 (NR_ATTRIBUTE_DESTINATION_ALL, ['k'], nrobj_t.long 0)

/-- A 300-byte key, longer than `NR_ATTRIBUTE_KEY_LENGTH_LIMIT`. -/
def longKey300 : List Char := List.replicate 300 'k'

/-- A 300-byte string value, longer than `NR_ATTRIBUTE_VALUE_LENGTH_LIMIT`. -/
def longValue300 : List Char := List.replicate 300 'v'

/-- A user attribute resolved to TXN_EVENT, for the extraction example. -/
def extractionExampleAttr : nr_attribute_t :=
  { key := ['a'], value := nrobj_t.long 1,
    destinations := NR_ATTRIBUTE_DESTINATION_TXN_EVENT }

/-- A store holding `extractionExampleAttr` in its user collection. -/
def extractionExampleStore : nr_attributes_t :=
  { config := nr_attribute_config_create,
    user_attributes := [extractionExampleAttr],
    agent_attributes := [] }

/-! ### Shared lemmas about the embedding -/

theorem testBit_andNot (a b i : Nat) :
    (andNot a b).testBit i = ((a.testBit i) && !(b.testBit i)) := by
  simp only [andNot, Nat.testBit_xor, Nat.testBit_and]
  cases a.testBit i <;> cases b.testBit i <;> rfl

theorem andNot_land_self (a b : Nat) : andNot a b &&& b = 0 := by
  apply Nat.eq_of_testBit_eq
  intro i
  simp only [Nat.testBit_and, testBit_andNot, Nat.zero_testBit]
  cases a.testBit i <;> cases b.testBit i <;> rfl

theorem andNot_zero (a : Nat) : andNot a 0 = a := by
  apply Nat.eq_of_testBit_eq
  intro i
  simp only [testBit_andNot, Nat.zero_testBit]
  cases a.testBit i <;> rfl

theorem land_lor_self (a b : Nat) : a &&& (a ||| b) = a := by
  apply Nat.eq_of_testBit_eq
  intro i
  simp only [Nat.testBit_and, Nat.testBit_or]
  cases a.testBit i <;> cases b.testBit i <;> rfl

theorem andNot_land_subset (x dis d : Nat) (h : d &&& dis = d) :
    andNot x dis &&& d = 0 := by
  apply Nat.eq_of_testBit_eq
  intro i
  have hd : (d.testBit i && dis.testBit i) = d.testBit i := by
    have := congrArg (fun n => n.testBit i) h
    simpa [Nat.testBit_and] using this
  simp only [Nat.testBit_and, testBit_andNot, Nat.zero_testBit]
  revert hd
  cases x.testBit i <;> cases dis.testBit i <;> cases d.testBit i <;> simp

theorem mostSpecificRule_eq_none {key : List Char}
    {rules : List (List Char × destination_modifier_t)} :
    mostSpecificRule key rules = none ↔
      ∀ r ∈ rules, patternMatches r.1 key = false := by
  induction rules with
  | nil => simp [mostSpecificRule]
  | cons r rest ih =>
    simp only [mostSpecificRule, List.mem_cons]
    by_cases hm : patternMatches r.1 key = true
    · simp only [hm, if_true]
      constructor
      · intro h
        cases hbest : mostSpecificRule key rest with
        | none => simp [hbest] at h
        | some b =>
          simp only [hbest] at h
          split at h <;> simp at h
      · intro h
        exact absurd hm (by simp [h r (Or.inl rfl)])
    · have hm' : patternMatches r.1 key = false := by
        cases h : patternMatches r.1 key
        · rfl
        · exact absurd h hm
      simp only [hm', Bool.false_eq_true, if_false]
      constructor
      · intro h x hx
        rcases hx with hx | hx
        · subst hx; exact hm'
        · exact ih.mp h x hx
      · intro h
        exact ih.mpr (fun x hx => h x (Or.inr hx))

theorem mostSpecificRule_mem {key : List Char}
    {rules : List (List Char × destination_modifier_t)}
    {r : List Char × destination_modifier_t}
    (h : mostSpecificRule key rules = some r) :
    r ∈ rules ∧ patternMatches r.1 key = true := by
  induction rules with
  | nil => simp [mostSpecificRule] at h
  | cons a rest ih =>
    simp only [mostSpecificRule] at h
    by_cases hm : patternMatches a.1 key = true
    · rw [if_pos hm] at h
      cases hbest : mostSpecificRule key rest with
      | none =>
        simp only [hbest, Option.some.injEq] at h
        subst h
        exact ⟨List.mem_cons_self a rest, hm⟩
      | some b =>
        simp only [hbest] at h
        by_cases hlt : matchSpecificity b.1 < matchSpecificity a.1
        · rw [if_pos hlt] at h
          simp only [Option.some.injEq] at h
          subst h
          exact ⟨List.mem_cons_self a rest, hm⟩
        · rw [if_neg hlt] at h
          simp only [Option.some.injEq] at h
          subst h
          obtain ⟨hmem, hmatch⟩ := ih hbest
          exact ⟨List.mem_cons_of_mem a hmem, hmatch⟩
    · rw [if_neg hm] at h
      obtain ⟨hmem, hmatch⟩ := ih h
      exact ⟨List.mem_cons_of_mem a hmem, hmatch⟩

theorem mostSpecificRule_maximal {key : List Char}
    {rules : List (List Char × destination_modifier_t)}
    {r : List Char × destination_modifier_t}
    (h : mostSpecificRule key rules = some r) :
    ∀ q ∈ rules, patternMatches q.1 key = true →
      matchSpecificity q.1 ≤ matchSpecificity r.1 := by
  induction rules generalizing r with
  | nil => simp [mostSpecificRule] at h
  | cons a rest ih =>
    intro q hq hqm
    rcases List.mem_cons.mp hq with hq' | hq'
    all_goals simp only [mostSpecificRule] at h
    all_goals by_cases hm : patternMatches a.1 key = true
    · -- q = a, a matches
      rw [if_pos hm] at h
      cases hbest : mostSpecificRule key rest with
      | none =>
        simp only [hbest, Option.some.injEq] at h
        subst h; subst hq'; exact le_refl _
      | some b =>
        simp only [hbest] at h
        by_cases hlt : matchSpecificity b.1 < matchSpecificity a.1
        · rw [if_pos hlt] at h
          simp only [Option.some.injEq] at h
          subst h; subst hq'; exact le_refl _
        · rw [if_neg hlt] at h
          simp only [Option.some.injEq] at h
          subst h; subst hq'; exact le_of_not_lt hlt
    · -- q = a, a does not match: contradiction with hqm
      subst hq'; exact absurd hqm hm
    · -- q ∈ rest, a matches
      rw [if_pos hm] at h
      cases hbest : mostSpecificRule key rest with
      | none =>
        exact absurd hqm (by simp [mostSpecificRule_eq_none.mp hbest q hq'])
      | some b =>
        simp only [hbest] at h
        by_cases hlt : matchSpecificity b.1 < matchSpecificity a.1
        · rw [if_pos hlt] at h
          simp only [Option.some.injEq] at h
          subst h
          exact le_trans (ih hbest q hq' hqm) (le_of_lt hlt)
        · rw [if_neg hlt] at h
          simp only [Option.some.injEq] at h
          subst h
          exact ih hbest q hq' hqm
    · -- q ∈ rest, a does not match
      rw [if_neg hm] at h
      exact ih h q hq' hqm

theorem patternIsWildcard_concat (q : List Char) :
    patternIsWildcard (q ++ ['*']) = true := by
  simp [patternIsWildcard, List.getLast?_concat]

theorem patternLiteralPrefix_concat (q : List Char) :
    patternLiteralPrefix (q ++ ['*']) = q := by
  simp [patternLiteralPrefix, List.dropLast_concat]

theorem patternMatches_exact {p key : List Char}
    (hw : patternIsWildcard p = false) :
    patternMatches p key = true ↔ p = key := by
  simp [patternMatches, hw]

theorem patternMatches_wildcard {p key : List Char}
    (hw : patternIsWildcard p = true) :
    patternMatches p key = true ↔ patternLiteralPrefix p <+: key := by
  simp [patternMatches, hw, List.isPrefixOf_iff_prefix]

theorem andNot_land_land (x e i : Nat) : andNot x e &&& (i &&& e) = 0 := by
  apply Nat.eq_of_testBit_eq
  intro k
  simp only [Nat.testBit_and, testBit_andNot, Nat.zero_testBit]
  cases x.testBit k <;> cases e.testBit k <;> cases i.testBit k <;> rfl

theorem land_lor_self_right (d a : Nat) : d &&& (a ||| d) = d := by
  apply Nat.eq_of_testBit_eq
  intro i
  simp only [Nat.testBit_and, Nat.testBit_or]
  cases d.testBit i <;> cases a.testBit i <;> rfl

theorem land_lor_of_land (d a x : Nat) (h : d &&& a = d) : d &&& (a ||| x) = d := by
  apply Nat.eq_of_testBit_eq
  intro i
  have hl : (d.testBit i && a.testBit i) = d.testBit i := by
    have := congrArg (fun n => n.testBit i) h
    simpa [Nat.testBit_and] using this
  simp only [Nat.testBit_and, Nat.testBit_or]
  revert hl
  cases d.testBit i <;> cases a.testBit i <;> cases x.testBit i <;> simp

theorem updateRules_updateRules (rs : List (List Char × destination_modifier_t))
    (p : List Char) (i1 e1 i2 e2 : Nat) :
    updateRules (updateRules rs p i1 e1) p i2 e2
      = updateRules rs p (i1 ||| i2) (e1 ||| e2) := by
  induction rs with
  | nil => simp [updateRules, Nat.lor_assoc]
  | cons r rest ih =>
    by_cases h : r.1 = p
    · simp [updateRules, h, Nat.lor_assoc]
    · simp [updateRules, h, ih]

theorem updateRules_mem_self (rs : List (List Char × destination_modifier_t))
    (p : List Char) (i e : Nat) : ∃ m, (p, m) ∈ updateRules rs p i e := by
  induction rs with
  | nil =>
    exact ⟨{ include_destinations := i, exclude_destinations := e }, by simp [updateRules]⟩
  | cons r rest ih =>
    by_cases h : r.1 = p
    · refine ⟨{ include_destinations := r.2.include_destinations ||| i,
                exclude_destinations := r.2.exclude_destinations ||| e }, ?_⟩
      simp [updateRules, h]
    · obtain ⟨m, hm⟩ := ih
      exact ⟨m, by simp [updateRules, h, List.mem_cons, hm]⟩

theorem updateRules_length_of_mem (rs : List (List Char × destination_modifier_t))
    (p : List Char) (i e : Nat) (h : ∃ m, (p, m) ∈ rs) :
    (updateRules rs p i e).length = rs.length := by
  induction rs with
  | nil => simp at h
  | cons r rest ih =>
    by_cases hr : r.1 = p
    · simp [updateRules, hr]
    · obtain ⟨m, hm⟩ := h
      rcases List.mem_cons.mp hm with hm' | hm'
      · exact absurd (congrArg Prod.fst hm'.symm) hr
      · simp [updateRules, hr, ih ⟨m, hm'⟩]

theorem applyConfigOp_disabled_mono (c : nr_attribute_config_t) (op : config_op)
    (d : Nat) (h : d &&& c.disabled_destinations = d) :
    d &&& (applyConfigOp c op).disabled_destinations = d := by
  cases op with
  | disable x =>
    simp only [applyConfigOp, nr_attribute_config_disable_destinations]
    exact land_lor_of_land d c.disabled_destinations x h
  | modify p i e =>
    simp only [applyConfigOp, nr_attribute_config_modify_destinations]
    split <;> exact h

theorem applyConfigOps_disabled_mono (ops : List config_op) :
    ∀ c : nr_attribute_config_t, ∀ d : Nat, d &&& c.disabled_destinations = d →
      d &&& (applyConfigOps c ops).disabled_destinations = d := by
  induction ops with
  | nil => intro c d h; simpa [applyConfigOps] using h
  | cons op rest ih =>
    intro c d h
    have hstep : applyConfigOps c (op :: rest) = applyConfigOps (applyConfigOp c op) rest := rfl
    rw [hstep]
    exact ih _ d (applyConfigOp_disabled_mono c op d h)

theorem userAddAll_length (xs : List (Nat × List Char × nrobj_t)) :
    ∀ ats : nr_attributes_t,
      ats.user_attributes.length ≤ NR_ATTRIBUTE_USER_LIMIT →
      (userAddAll ats xs).user_attributes.length =
        min NR_ATTRIBUTE_USER_LIMIT (ats.user_attributes.length + xs.length) := by
  induction xs with
  | nil =>
    intro ats h
    simp only [userAddAll, List.foldl_nil, List.length_nil, Nat.add_zero]
    omega
  | cons x rest ih =>
    intro ats h
    have hstep : userAddAll ats (x :: rest)
        = userAddAll (nr_attributes_user_add ats x.1 x.2.1 x.2.2).2 rest := rfl
    rw [hstep]
    by_cases hc : NR_ATTRIBUTE_USER_LIMIT ≤ ats.user_attributes.length
    · have hfull : (nr_attributes_user_add ats x.1 x.2.1 x.2.2).2 = ats := by
        simp [nr_attributes_user_add, hc]
      rw [hfull, ih ats h]
      have h64 : ats.user_attributes.length = NR_ATTRIBUTE_USER_LIMIT := le_antisymm h hc
      simp only [List.length_cons]
      omega
    · have hsucc : (nr_attributes_user_add ats x.1 x.2.1 x.2.2).2
          = { ats with
              user_attributes := ats.user_attributes ++
                [{ key := x.2.1.take NR_ATTRIBUTE_KEY_LENGTH_LIMIT,
                   value := truncateValue x.2.2,
                   destinations := resolve x.1 x.2.1 ats.config }] } := by
        simp [nr_attributes_user_add, hc]
      rw [hsucc, ih _ (by simp; omega)]
      simp only [List.length_append, List.length_cons, List.length_nil]
      omega

theorem foldl_hashSet_filter (attrs : List nr_attribute_t) (dest : Nat) :
    ∀ init : List (List Char × nrobj_t),
      attrs.foldl
          (fun m a => if a.destinations &&& dest ≠ 0 then hashSet m a.key a.value else m)
          init
        = (attrs.filter (fun a => decide (a.destinations &&& dest ≠ 0))).foldl
            (fun m a => hashSet m a.key a.value) init := by
  induction attrs with
  | nil => intro init; rfl
  | cons a rest ih =>
    intro init
    by_cases h : a.destinations &&& dest ≠ 0
    · simp only [List.foldl_cons, List.filter_cons, if_pos h, decide_eq_true h, ih]
      simp
    · simp only [List.foldl_cons, List.filter_cons, if_neg h, decide_eq_false h, ih]
      simp

theorem matchSpecificity_exact_gt_wildcard {p q key : List Char}
    (hpw : patternIsWildcard p = false) (hpm : patternMatches p key = true)
    (hqw : patternIsWildcard q = true) (hqm : patternMatches q key = true) :
    matchSpecificity q < matchSpecificity p := by
  have hp : p = key := (patternMatches_exact hpw).mp hpm
  have hq : patternLiteralPrefix q <+: key := (patternMatches_wildcard hqw).mp hqm
  have hlen : (patternLiteralPrefix q).length ≤ key.length := hq.length_le
  simp only [matchSpecificity, hpw, hqw, if_true, Bool.false_eq_true, if_false]
  subst hp
  omega

/-! ### Claim theorems -/

/-- C1: for every default destination bitset, key and config, if a most
specific matching rule exists the rule stage of `resolve` returns
`(default_destinations | rule.include) & ~rule.exclude` — so any bit in both
include and exclude is absent from the result — and if no rule matches the key
the rule stage returns the default destinations unchanged; `resolve` is that
stage followed only by the global-disable step. -/
theorem C1_resolve_rule_application (dd : Nat) (key : List Char)
    (c : nr_attribute_config_t) :
    (∀ r, mostSpecificRule key c.rules = some r →
        applyRules dd key c
            = andNot (dd ||| r.2.include_destinations) r.2.exclude_destinations
          ∧ applyRules dd key c
              &&& (r.2.include_destinations &&& r.2.exclude_destinations) = 0)
    ∧ ((∀ q ∈ c.rules, patternMatches q.1 key = false) → applyRules dd key c = dd)
    ∧ resolve dd key c = andNot (applyRules dd key c) c.disabled_destinations := by
  refine ⟨?_, ?_, rfl⟩
  · intro r hr
    have happ : applyRules dd key c
        = andNot (dd ||| r.2.include_destinations) r.2.exclude_destinations := by
      simp [applyRules, hr]
    refine ⟨happ, ?_⟩
    rw [happ]
    exact andNot_land_land _ _ _
  · intro hnone
    have h : mostSpecificRule key c.rules = none := mostSpecificRule_eq_none.mpr hnone
    simp [applyRules, h]

/-- C1 witness: a config with the single rule `"a" → {include 1, exclude 1}`,
default destinations 15 and key `"a"`: the rule stage yields
`(15 | 1) & ~1` and clears the conflicting bit. -/
theorem C1_resolve_rule_application_witness :
    mostSpecificRule ['a']
        (nr_attribute_config_t.mk 0
          [(['a'], destination_modifier_t.mk 1 1)]).rules
      = some (['a'], destination_modifier_t.mk 1 1)
    ∧ (applyRules 15 ['a']
          (nr_attribute_config_t.mk 0 [(['a'], destination_modifier_t.mk 1 1)])
          = andNot (15 ||| 1) 1
        ∧ applyRules 15 ['a']
            (nr_attribute_config_t.mk 0 [(['a'], destination_modifier_t.mk 1 1)])
            &&& (1 &&& 1) = 0) :=
  ⟨by decide,
    (C1_resolve_rule_application 15 ['a']
        (nr_attribute_config_t.mk 0 [(['a'], destination_modifier_t.mk 1 1)])).1
      (['a'], destination_modifier_t.mk 1 1) (by decide)⟩

/-- C3: after `disable_destinations(D)` on any config, no matter which
configuration calls follow in whatever order, `resolve` on any key and any
default destinations yields a bitset disjoint from `D`. -/
theorem C3_global_disable_override (c : nr_attribute_config_t) (D : Nat)
    (ops : List config_op) (dd : Nat) (key : List Char) :
    resolve dd key
        (applyConfigOps (nr_attribute_config_disable_destinations c D) ops)
      &&& D = 0 := by
  have h0 : D &&& (nr_attribute_config_disable_destinations c D).disabled_destinations
      = D := land_lor_self_right D c.disabled_destinations
  have h1 := applyConfigOps_disabled_mono ops
    (nr_attribute_config_disable_destinations c D) D h0
  exact andNot_land_subset _ _ _ h1

/-- C4: two `modify_destinations` calls with the same pattern are one call
with the OR-ed include and exclude sets — the configs are equal, so all
subsequent resolutions agree — and the repeated pattern adds no second rule
entry. -/
theorem C4_modify_destinations_merge (c : nr_attribute_config_t)
    (p : List Char) (i1 e1 i2 e2 : Nat) :
    nr_attribute_config_modify_destinations
        (nr_attribute_config_modify_destinations c p i1 e1) p i2 e2
      = nr_attribute_config_modify_destinations c p (i1 ||| i2) (e1 ||| e2)
    ∧ (nr_attribute_config_modify_destinations
          (nr_attribute_config_modify_destinations c p i1 e1) p i2 e2).rules.length
        = (nr_attribute_config_modify_destinations c p i1 e1).rules.length := by
  by_cases hp : p = []
  · simp [nr_attribute_config_modify_destinations, hp]
  · constructor
    · simp [nr_attribute_config_modify_destinations, hp, updateRules_updateRules]
    · simp only [nr_attribute_config_modify_destinations, if_neg hp]
      exact updateRules_length_of_mem _ p i2 e2 (updateRules_mem_self c.rules p i1 e1)

/-- C5: two `disable_destinations` calls are one call with the OR-ed bitset;
the operation is idempotent and order-independent, and the disabled set never
shrinks. -/
theorem C5_disable_destinations_merge (c : nr_attribute_config_t) (d1 d2 : Nat) :
    nr_attribute_config_disable_destinations
        (nr_attribute_config_disable_destinations c d1) d2
      = nr_attribute_config_disable_destinations c (d1 ||| d2)
    ∧ nr_attribute_config_disable_destinations
        (nr_attribute_config_disable_destinations c d1) d1
      = nr_attribute_config_disable_destinations c d1
    ∧ nr_attribute_config_disable_destinations
        (nr_attribute_config_disable_destinations c d1) d2
      = nr_attribute_config_disable_destinations
          (nr_attribute_config_disable_destinations c d2) d1
    ∧ c.disabled_destinations
        &&& (nr_attribute_config_disable_destinations c d1).disabled_destinations
      = c.disabled_destinations := by
  refine ⟨?_, ?_, ?_, ?_⟩
  · simp only [nr_attribute_config_disable_destinations]
    rw [Nat.lor_assoc]
  · simp only [nr_attribute_config_disable_destinations]
    rw [Nat.lor_assoc, Nat.or_self]
  · simp only [nr_attribute_config_disable_destinations]
    rw [Nat.lor_assoc, Nat.lor_assoc, Nat.lor_comm d1 d2]
  · simp only [nr_attribute_config_disable_destinations]
    exact land_lor_self c.disabled_destinations d1

/-- C10: the convenience functions `nr_attributes_user_add_string` and
`nr_attributes_user_add_long` return the same status and leave the store in
the same state as `nr_attributes_user_add` with the value wrapping the given
string or long — they are pure wrappers over `user_add`. -/
theorem C10_user_add_convenience_wrappers (ats : nr_attributes_t) (dd : Nat)
    (key s : List Char) (lng : Int) :
    nr_attributes_user_add_string ats dd key s
      = nr_attributes_user_add ats dd key (nrobj_t.str s)
    ∧ nr_attributes_user_add_long ats dd key lng
      = nr_attributes_user_add ats dd key (nrobj_t.long lng) :=
  ⟨rfl, rfl⟩

/-- C2: the rule applied by resolution matches the key and no other matching
rule beats it in the specificity order — an exact (non-wildcard) pattern beats
any wildcard, and among wildcards a longer literal prefix beats a shorter —
and on the spec's example (rule `"foo*"` includes BROWSER, exact rule
`"foobar"` excludes BROWSER) key `"foobar"` resolves without BROWSER for every
default bitset. -/
theorem C2_most_specific_rule_wins (c : nr_attribute_config_t) (key : List Char)
    (r : List Char × destination_modifier_t)
    (h : mostSpecificRule key c.rules = some r) :
    patternMatches r.1 key = true
    ∧ (∀ q ∈ c.rules, patternMatches q.1 key = true →
        (patternIsWildcard q.1 = false → patternIsWildcard r.1 = false)
        ∧ (patternIsWildcard r.1 = true → patternIsWildcard q.1 = true →
            (patternLiteralPrefix q.1).length ≤ (patternLiteralPrefix r.1).length))
    ∧ (∀ dd, resolve dd ['f', 'o', 'o', 'b', 'a', 'r'] specificityExampleConfig
          &&& NR_ATTRIBUTE_DESTINATION_BROWSER = 0) := by
  refine ⟨(mostSpecificRule_mem h).2, ?_, ?_⟩
  · intro q hq hqm
    constructor
    · intro hqw
      by_contra hrw'
      have hrw : patternIsWildcard r.1 = true := by
        cases hw : patternIsWildcard r.1
        · exact absurd hw hrw'
        · rfl
      have hlt := matchSpecificity_exact_gt_wildcard hqw hqm hrw
        (mostSpecificRule_mem h).2
      have hle := mostSpecificRule_maximal h q hq hqm
      omega
    · intro hrw hqw
      have hle := mostSpecificRule_maximal h q hq hqm
      simp [matchSpecificity, hrw, hqw] at hle
      omega
  · intro dd
    have hms : mostSpecificRule ['f', 'o', 'o', 'b', 'a', 'r']
        specificityExampleConfig.rules
        = some (['f', 'o', 'o', 'b', 'a', 'r'],
            destination_modifier_t.mk NR_ATTRIBUTE_DESTINATION_NONE
              NR_ATTRIBUTE_DESTINATION_BROWSER) := by decide
    have hdis : specificityExampleConfig.disabled_destinations = 0 := by decide
    simp only [resolve, applyRules, hms, hdis, andNot_zero]
    exact andNot_land_self _ _

/-- C2 witness: on the spec's example config the exact `"foobar"` rule is the
one selected, and resolving key `"foobar"` with default destinations 15
yields a bitset without BROWSER. -/
theorem C2_most_specific_rule_wins_witness :
    mostSpecificRule ['f', 'o', 'o', 'b', 'a', 'r'] specificityExampleConfig.rules
      = some (['f', 'o', 'o', 'b', 'a', 'r'],
          destination_modifier_t.mk NR_ATTRIBUTE_DESTINATION_NONE
            NR_ATTRIBUTE_DESTINATION_BROWSER)
    ∧ resolve 15 ['f', 'o', 'o', 'b', 'a', 'r'] specificityExampleConfig
        &&& NR_ATTRIBUTE_DESTINATION_BROWSER = 0 := by
  have h : mostSpecificRule ['f', 'o', 'o', 'b', 'a', 'r']
      specificityExampleConfig.rules
      = some (['f', 'o', 'o', 'b', 'a', 'r'],
          destination_modifier_t.mk NR_ATTRIBUTE_DESTINATION_NONE
            NR_ATTRIBUTE_DESTINATION_BROWSER) := by decide
  exact ⟨h, (C2_most_specific_rule_wins specificityExampleConfig
    ['f', 'o', 'o', 'b', 'a', 'r'] _ h).2.2 15⟩

/-- C6: with the user collection at the 64-entry cap, `user_add` reports
failure and leaves the store exactly unchanged; 65 user insertions into a
fresh store leave exactly 64 stored; the cap applies to neither
`agent_add_long` nor `agent_add_string`, which always succeed and append. -/
theorem C6_user_capacity (ats : nr_attributes_t) (dd : Nat) (key s : List Char)
    (v : nrobj_t) (lng : Int) (c : nr_attribute_config_t)
    (xs : List (Nat × List Char × nrobj_t)) :
    (NR_ATTRIBUTE_USER_LIMIT ≤ ats.user_attributes.length →
        nr_attributes_user_add ats dd key v = (nr_status_t.NR_FAILURE, ats))
    ∧ (xs.length = 65 →
        (userAddAll (nr_attributes_create c) xs).user_attributes.length = 64)
    ∧ (nr_attributes_agent_add_long ats dd key lng).1 = nr_status_t.NR_SUCCESS
    ∧ (nr_attributes_agent_add_long ats dd key lng).2.agent_attributes.length
        = ats.agent_attributes.length + 1
    ∧ (nr_attributes_agent_add_string ats dd key s).1 = nr_status_t.NR_SUCCESS
    ∧ (nr_attributes_agent_add_string ats dd key s).2.agent_attributes.length
        = ats.agent_attributes.length + 1 := by
  refine ⟨?_, ?_, rfl, ?_, rfl, ?_⟩
  · intro h
    simp [nr_attributes_user_add, h]
  · intro hxs
    have hlen := userAddAll_length xs (nr_attributes_create c)
      (by simp [nr_attributes_create, NR_ATTRIBUTE_USER_LIMIT])
    rw [hlen, hxs]
    simp only [nr_attributes_create, List.length_nil, Nat.zero_add]
    decide
  · simp [nr_attributes_agent_add_long]
  · simp [nr_attributes_agent_add_string]

/-- C6 witness: the 65th insertion into a full store fails without mutation,
and 65 insertions into a fresh store leave exactly 64 stored. -/
theorem C6_user_capacity_witness :
    NR_ATTRIBUTE_USER_LIMIT ≤ fullUserStore.user_attributes.length
    ∧ sixtyFiveInserts.length = 65
    ∧ nr_attributes_user_add fullUserStore 15 ['k'] (nrobj_t.long 7)
        = (nr_status_t.NR_FAILURE, fullUserStore)
    ∧ (userAddAll (nr_attributes_create nr_attribute_config_create)
        sixtyFiveInserts).user_attributes.length = 64 := by
  have h1 : NR_ATTRIBUTE_USER_LIMIT ≤ fullUserStore.user_attributes.length := by
    decide
  have h2 : sixtyFiveInserts.length = 65 := by decide
  exact ⟨h1, h2,
    (C6_user_capacity fullUserStore 15 ['k'] ['v'] (nrobj_t.long 7) 0
      nr_attribute_config_create sixtyFiveInserts).1 h1,
    (C6_user_capacity fullUserStore 15 ['k'] ['v'] (nrobj_t.long 7) 0
      nr_attribute_config_create sixtyFiveInserts).2.1 h2⟩

/-- C7: below the cap, every insertion succeeds silently and the stored
attribute carries the key truncated to its first 255 bytes and a string value
truncated to its first 255 bytes, for `user_add`, `agent_add_string` and
`agent_add_long` alike. -/
theorem C7_silent_truncation (ats : nr_attributes_t) (dd : Nat)
    (key s : List Char) (lng : Int)
    (h : ats.user_attributes.length < NR_ATTRIBUTE_USER_LIMIT) :
    ((nr_attributes_user_add ats dd key (nrobj_t.str s)).1 = nr_status_t.NR_SUCCESS
      ∧ (nr_attributes_user_add ats dd key (nrobj_t.str s)).2.user_attributes.getLast?
          = some { key := key.take NR_ATTRIBUTE_KEY_LENGTH_LIMIT,
                   value := nrobj_t.str (s.take NR_ATTRIBUTE_VALUE_LENGTH_LIMIT),
                   destinations := resolve dd key ats.config })
    ∧ ((nr_attributes_agent_add_string ats dd key s).1 = nr_status_t.NR_SUCCESS
      ∧ (nr_attributes_agent_add_string ats dd key s).2.agent_attributes.getLast?
          = some { key := key.take NR_ATTRIBUTE_KEY_LENGTH_LIMIT,
                   value := nrobj_t.str (s.take NR_ATTRIBUTE_VALUE_LENGTH_LIMIT),
                   destinations := resolve dd key ats.config })
    ∧ ((nr_attributes_agent_add_long ats dd key lng).1 = nr_status_t.NR_SUCCESS
      ∧ (nr_attributes_agent_add_long ats dd key lng).2.agent_attributes.getLast?
          = some { key := key.take NR_ATTRIBUTE_KEY_LENGTH_LIMIT,
                   value := nrobj_t.long lng,
                   destinations := resolve dd key ats.config }) := by
  have hnot : ¬ NR_ATTRIBUTE_USER_LIMIT ≤ ats.user_attributes.length :=
    Nat.not_le.mpr h
  refine ⟨⟨?_, ?_⟩, ⟨rfl, ?_⟩, ⟨rfl, ?_⟩⟩
  · simp [nr_attributes_user_add, hnot]
  · simp [nr_attributes_user_add, hnot, truncateValue, List.getLast?_concat]
  · simp [nr_attributes_agent_add_string, List.getLast?_concat]
  · simp [nr_attributes_agent_add_long, List.getLast?_concat]

/-- C7 witness: inserting a 300-byte key with a 300-byte string value into a
fresh store succeeds, and the stored attribute has both truncated to their
first 255 bytes. -/
theorem C7_silent_truncation_witness :
    (nr_attributes_create nr_attribute_config_create).user_attributes.length
        < NR_ATTRIBUTE_USER_LIMIT
    ∧ ((nr_attributes_user_add (nr_attributes_create nr_attribute_config_create)
          15 longKey300 (nrobj_t.str longValue300)).1 = nr_status_t.NR_SUCCESS
      ∧ (nr_attributes_user_add (nr_attributes_create nr_attribute_config_create)
          15 longKey300 (nrobj_t.str longValue300)).2.user_attributes.getLast?
          = some { key := longKey300.take NR_ATTRIBUTE_KEY_LENGTH_LIMIT,
                   value := nrobj_t.str (longValue300.take NR_ATTRIBUTE_VALUE_LENGTH_LIMIT),
                   destinations := resolve 15 longKey300
                     (nr_attributes_create nr_attribute_config_create).config }) := by
  have h : (nr_attributes_create nr_attribute_config_create).user_attributes.length
      < NR_ATTRIBUTE_USER_LIMIT := by decide
  exact ⟨h, (C7_silent_truncation (nr_attributes_create nr_attribute_config_create)
    15 longKey300 longValue300 0 h).1⟩

/-- C8: the mapping produced by `user_to_obj` (and `agent_to_obj`) is built
from exactly the attributes of the corresponding collection whose resolved
destination bitset has a non-zero bitwise AND with the filter; an attribute
whose resolved bitset is NONE is selected for no filter at all. -/
theorem C8_extraction_filter (ats : nr_attributes_t) (f : Nat)
    (a : nr_attribute_t) (ha : a ∈ ats.user_attributes) :
    nr_attributes_user_to_obj ats f
        = nrobj_t.hash
            ((ats.user_attributes.filter
                (fun b => decide (b.destinations &&& f ≠ 0))).foldl
              (fun m b => hashSet m b.key b.value) [])
    ∧ (a ∈ ats.user_attributes.filter (fun b => decide (b.destinations &&& f ≠ 0))
        ↔ a.destinations &&& f ≠ 0)
    ∧ (a.destinations = NR_ATTRIBUTE_DESTINATION_NONE →
        ∀ g : Nat, a ∉ ats.user_attributes.filter
            (fun b => decide (b.destinations &&& g ≠ 0)))
    ∧ (∀ b ∈ ats.agent_attributes,
        nr_attributes_agent_to_obj ats f
            = nrobj_t.hash
                ((ats.agent_attributes.filter
                    (fun x => decide (x.destinations &&& f ≠ 0))).foldl
                  (fun m x => hashSet m x.key x.value) [])
        ∧ (b ∈ ats.agent_attributes.filter
              (fun x => decide (x.destinations &&& f ≠ 0))
            ↔ b.destinations &&& f ≠ 0)) := by
  refine ⟨?_, ?_, ?_, ?_⟩
  · simp only [nr_attributes_user_to_obj, attributesToObj, foldl_hashSet_filter]
  · simp [List.mem_filter, ha]
  · intro h0 g
    simp [List.mem_filter, h0, NR_ATTRIBUTE_DESTINATION_NONE, Nat.zero_and]
  · intro b hb
    exact ⟨by simp only [nr_attributes_agent_to_obj, attributesToObj,
        foldl_hashSet_filter],
      by simp [List.mem_filter, hb]⟩

/-- C8 witness: a store holding one user attribute resolved to TXN_EVENT:
that attribute is selected by the TXN_EVENT filter. -/
theorem C8_extraction_filter_witness :
    extractionExampleAttr ∈ extractionExampleStore.user_attributes
    ∧ (extractionExampleAttr ∈ extractionExampleStore.user_attributes.filter
          (fun b => decide (b.destinations &&& NR_ATTRIBUTE_DESTINATION_TXN_EVENT ≠ 0))
        ↔ extractionExampleAttr.destinations
            &&& NR_ATTRIBUTE_DESTINATION_TXN_EVENT ≠ 0) := by
  have hmem : extractionExampleAttr ∈ extractionExampleStore.user_attributes := by
    simp [extractionExampleStore]
  exact ⟨hmem, (C8_extraction_filter extractionExampleStore
    NR_ATTRIBUTE_DESTINATION_TXN_EVENT extractionExampleAttr hmem).2.1⟩

/-- C9: a pattern whose final character is the wildcard marker matches exactly
the keys starting with its literal prefix, and a pattern not ending in `*`
matches exactly the key equal to it — so a `*` anywhere but the last position
is literal text. -/
theorem C9_pattern_matching (p q key : List Char) :
    (patternMatches (q ++ ['*']) key = true ↔ q <+: key)
    ∧ (p.getLast? ≠ some '*' → (patternMatches p key = true ↔ p = key)) := by
  constructor
  · rw [patternMatches_wildcard (patternIsWildcard_concat q),
      patternLiteralPrefix_concat]
  · intro hp
    apply patternMatches_exact
    simp [patternIsWildcard, hp]

/-- C9 witness: `"foo*"` matches `"foob"` by prefix, while `"a*b"` — whose `*`
is not last — matches only the literal key `"a*b"`, not `"foob"`. -/
theorem C9_pattern_matching_witness :
    (['a', '*', 'b'] : List Char).getLast? ≠ some '*'
    ∧ (patternMatches (['f', 'o', 'o'] ++ ['*']) ['f', 'o', 'o', 'b'] = true
        ↔ ['f', 'o', 'o'] <+: ['f', 'o', 'o', 'b'])
    ∧ (patternMatches ['a', '*', 'b'] ['f', 'o', 'o', 'b'] = true
        ↔ ['a', '*', 'b'] = ['f', 'o', 'o', 'b']) := by
  have hp : (['a', '*', 'b'] : List Char).getLast? ≠ some '*' := by decide
  exact ⟨hp,
    (C9_pattern_matching ['a', '*', 'b'] ['f', 'o', 'o'] ['f', 'o', 'o', 'b']).1,
    (C9_pattern_matching ['a', '*', 'b'] ['f', 'o', 'o'] ['f', 'o', 'o', 'b']).2 hp⟩

end NrAttributes
